import Mathlib

/-!
Verification of the infuse.host string/template compiler and runtime.

This development is a shallow embedding of the JavaScript sources:

* `splitFragments` / `joinFragments` (the fragment tokenizer module),
* `parseParts` / `createContextFunction` (the directive extractor and
  context compiler, first revision of `src/parseParts.js`),
* the cleanup registry (`src/sweep.js`),
* the watch registry (`src/Watch.js`),
* the iteration entry point `infuse` (second revision of `src/infuse.js`).

Strings are embedded as `List Char` (JavaScript `charAt` out of range is
`Option.none`), JS `null`/missing results as `Option`, thrown exceptions
as `Except`, and the mutable DOM-side registries as explicit state
records keyed by element identity (`Nat`).
-/

namespace Infuse

/-- A fragment produced by `splitFragments`: a plain string piece, an
expression (`$\x7b ... \x7d`) with its `hasAwait` flag, or a (possibly
tagged) template literal. -/
inductive Fragment where
  | str (s : List Char)
  | expr (hasAwait : Bool) (expression : List Char)
  | tmpl (tag : Option (List Char)) (hasAwait : Bool) (template : List Char)
deriving DecidableEq, Repr

/-- JavaScript whitespace recognised by `String.prototype.trim`
(ASCII whitespace plus no-break space; the exotic Unicode space
code points do not occur in the sources or tests). -/
def isJsSpace (ch : Char) : Bool :=
  ch == ' ' || ch == '\t' || ch == '\n' || ch == '\r' || ch == '\x0b' ||
    ch == '\x0c' || ch == ' '

/-- Embedding of `String.prototype.trim`. -/
def jsTrim (s : List Char) : List Char :=
  ((s.dropWhile isJsSpace).reverse.dropWhile isJsSpace).reverse

/-- Embedding of `input.substring(a, b)` for `a ≤ b` (the only way the
sources call it). -/
def sub (input : List Char) (a b : Nat) : List Char :=
  (input.drop a).take (b - a)

/-- The marker searched for by `expression.indexOf('await ') !== -1`. -/
def awaitMarker : List Char := 'a' :: 'w' :: 'a' :: 'i' :: 't' :: ' ' :: []

/-- Embedding of `s.indexOf(pat) !== -1`: does `pat` occur as a
contiguous run inside `s`? -/
def containsSeq (pat : List Char) : List Char → Bool
  | [] => pat.isPrefixOf []
  | c :: rest => pat.isPrefixOf (c :: rest) || containsSeq pat rest

/-- Scanner state of the `splitFragments` loop: `h` is the index after
the last emitted fragment, `templateStart`/`expressionStart` are the
`-1`-able start indices (embedded as `Option Nat`), `openedBraces`
counts nested braces inside an expression, and `fragments` accumulates
the output. -/
structure SFState where
  h : Nat
  templateStart : Option Nat
  expressionStart : Option Nat
  openedBraces : Nat
  fragments : List Fragment
deriving DecidableEq, Repr

/-- Initial scanner state. -/
def initState : SFState := ⟨0, none, none, 0, []⟩

/-- The trailing-fragment flush performed at the end of every loop
iteration: at the last index, everything from `h` on is pushed as a
string fragment. -/
def flushAt (input : List Char) (i : Nat) (st : SFState) : SFState :=
  if i + 1 = input.length ∧ st.h ≤ i then
    { st with fragments := st.fragments ++ [Fragment.str (input.drop st.h)] }
  else st

/-- One iteration of the `splitFragments` character loop at index `i`
(the call sites in this repository pass no `options`, so the tag-search
block is never entered: `j` stays `templateStart` and the pushed
template fragment carries `tag = none`, `hasAwait = false`).  The
escaped-backtick `continue` skips the flush. -/
def step (input : List Char) (i : Nat) (st : SFState) : SFState :=
  let a : Option Char := if i = 0 then none else input[i-1]?
  let b : Option Char := input[i]?
  let c : Option Char := input[i+1]?
  if b = some '\x60' ∧ st.expressionStart = none then
    match st.templateStart with
    | some t =>
      if a = some '\\' then st
      else
        let fr1 := if st.h < t then st.fragments ++ [Fragment.str (sub input st.h t)]
                   else st.fragments
        flushAt input i { st with
          fragments := fr1 ++ [Fragment.tmpl none false (sub input t (i+1))],
          h := i + 1, templateStart := none }
    | none =>
      if c ≠ some '\x60' then flushAt input i { st with templateStart := some i }
      else flushAt input i st
  else if b = some '\x7b' then
    if st.expressionStart ≠ none then
      flushAt input i { st with openedBraces := st.openedBraces + 1 }
    else if a = some '$' then
      flushAt input i { st with expressionStart := some (i-1) }
    else flushAt input i st
  else if b = some '\x7d' then
    match st.expressionStart with
    | none => flushAt input i st
    | some e =>
      if st.openedBraces ≠ 0 then
        flushAt input i { st with openedBraces := st.openedBraces - 1 }
      else if st.templateStart ≠ none then
        flushAt input i { st with expressionStart := none }
      else
        let fr1 := if st.h < e then st.fragments ++ [Fragment.str (sub input st.h e)]
                   else st.fragments
        let expression := jsTrim (sub input (e+2) i)
        flushAt input i { st with
          fragments := fr1 ++ [Fragment.expr (containsSeq awaitMarker expression) expression],
          h := i + 1, expressionStart := none }
  else flushAt input i st

/-- Runs `n` scanner iterations starting at index `i`. -/
def scanN (input : List Char) : Nat → Nat → SFState → SFState
  | 0, _, st => st
  | n+1, i, st => scanN input n (i+1) (step input i st)

/-- Embedding of `splitFragments(input)` (no `options`): scan every
character, then return `null` (`none`) when the result is a single
string fragment identical to the whole input. -/
def splitFragments (input : List Char) : Option (List Fragment) :=
  let st := scanN input input.length 0 initState
  match st.fragments with
  | [f] => if f = Fragment.str input then none else some st.fragments
  | _ => some st.fragments

/-- Brace discipline of an expression body: no prefix closes more
braces than it opens (each `\x7d` inside is matched by an earlier
`\x7b` inside). -/
def braceBalancedPrefixes (e : List Char) : Prop :=
  ∀ k, k ≤ e.length → (e.take k).count '\x7d' ≤ (e.take k).count '\x7b'

instance (e : List Char) : Decidable (braceBalancedPrefixes e) := by
  unfold braceBalancedPrefixes
  exact Nat.decidableBallLE e.length _

/-- The `fragment.hasAwait` read in `joinFragments` and `parseParts`
(`undefined`, hence falsy, on string fragments). -/
def fragmentHasAwait : Fragment → Bool
  | Fragment.str _ => false
  | Fragment.expr ha _ => ha
  | Fragment.tmpl _ ha _ => ha

/-- Escape of one character as performed by `JSON.stringify` on strings. -/
def jsonEscapeChar (ch : Char) : List Char :=
  if ch = '"' then '\\' :: '"' :: []
  else if ch = '\\' then '\\' :: '\\' :: []
  else if ch = '\n' then '\\' :: 'n' :: []
  else if ch = '\t' then '\\' :: 't' :: []
  else if ch = '\r' then '\\' :: 'r' :: []
  else if ch = '\x08' then '\\' :: 'b' :: []
  else if ch = '\x0c' then '\\' :: 'f' :: []
  else if ch.toNat < 32 then
    let ds := Nat.toDigits 16 ch.toNat
    '\\' :: 'u' :: (List.replicate (4 - ds.length) '0') ++ ds
  else [ch]

/-- Embedding of `JSON.stringify` applied to a string value. -/
def jsonStringify (s : List Char) : List Char :=
  '"' :: (s.flatMap jsonEscapeChar) ++ ['"']

/-- Source text generated for one fragment by the `fragments.map`
callback inside `joinFragments`.  An expression fragment with empty
code fails the truthiness test `if (fragment.expression)` and falls
through to the template branch, where `fragment.tag` and
`fragment.template` are both `undefined`, so string concatenation
yields the text `undefined`. -/
def fragSrc : Fragment → List Char
  | Fragment.str s => jsonStringify s
  | Fragment.expr ha code =>
      if code ≠ [] then '(' :: code ++ [')']
      else if ha then "(await undefined)".toList
      else "undefined".toList
  | Fragment.tmpl tag ha template =>
      let t := (match tag with
                | some tg => "tags.".toList ++ tg
                | none => []) ++ template
      if ha then "(await ".toList ++ t ++ [')'] else t

/-- The truthiness test `fragments.length > 1 && fragments[0].expression`
guarding the `src.splice(0, 0, '""')` in `joinFragments`:
`fragment.expression` is truthy only on an expression fragment with
non-empty code. -/
def headExprTruthy (fragments : List Fragment) : Bool :=
  match fragments.head? with
  | some (Fragment.expr _ code) => code ≠ []
  | _ => false

/-- Embedding of `joinFragments(fragments, isEventCallback)`. -/
def joinFragments (fragments : List Fragment) (isEventCallback : Bool) : List Char :=
  let isAsync := fragments.any fragmentHasAwait
  let src0 := fragments.map fragSrc
  let src1 := if 1 < fragments.length ∧ headExprTruthy fragments
              then ('"' :: '"' :: []) :: src0 else src0
  let src := List.intercalate (' ' :: '+' :: ' ' :: []) src1
  if isEventCallback then
    (if isAsync then "async ".toList else []) ++ "(e, event) => ".toList ++ src
  else src

/-! ### Association lists

JavaScript `Map` objects (and plain objects used as string-keyed maps)
are embedded as association lists in insertion order: `Map.prototype.set`
updates an existing binding in place or appends a new one,
`Map.prototype.delete` removes the binding. -/

/-- Embedding of `map.get(k)` (`undefined` becomes `none`). -/
def alookup {α β : Type} [DecidableEq α] (m : List (α × β)) (k : α) : Option β :=
  match m with
  | [] => none
  | (k', v) :: rest => if k' = k then some v else alookup rest k

/-- Embedding of `map.set(k, v)`. -/
def aset {α β : Type} [DecidableEq α] (m : List (α × β)) (k : α) (v : β) : List (α × β) :=
  match m with
  | [] => [(k, v)]
  | (k', v') :: rest => if k' = k then (k', v) :: rest else (k', v') :: aset rest k v

/-- Embedding of `map.delete(k)`. -/
def aerase {α β : Type} [DecidableEq α] (m : List (α × β)) (k : α) : List (α × β) :=
  m.filter (fun p => p.1 != k)

/-- Embedding of `s.startsWith(pre)`. -/
def startsWithL (pre s : List Char) : Bool := pre.isPrefixOf s

/-- Embedding of `s.endsWith(suf)`. -/
def endsWithL (suf s : List Char) : Bool := suf.reverse.isPrefixOf s.reverse

/-! ### Directive extractor (`parseParts`, first revision)

Attributes are embedded as `(name, value)` pairs of character lists and
child nodes as a list of `ChildNode`s.  The classification expressions
come from the `configs` map; in the shipped configuration they are
string prefixes or absent (`configs.get` returns `undefined` for a key
that is not set, and `searchName` returns `null` for a non-string,
non-`RegExp` expression), so string expressions are embedded as
`Option (List Char)`. -/

/-- Embedding of `searchName(str, exp)` for a string-prefix (or absent)
expression. -/
def searchName (str : List Char) (exp : Option (List Char)) : Option (List Char) :=
  match exp with
  | some pre =>
      if pre.length < str.length ∧ startsWithL pre str then some (str.drop pre.length)
      else none
  | none => none

/-- Capitalisation of one hyphen-separated word
(`str.charAt(0).toUpperCase() + str.substr(1)`). -/
def ucFirst (s : List Char) : List Char :=
  match s with
  | [] => []
  | ch :: rest => ch.toUpper :: rest

/-- Embedding of `camelCase(hyphenated)`. -/
def camelCase (s : List Char) : List Char :=
  match s.splitOn '-' with
  | [] => []
  | w :: ws => w ++ (ws.map ucFirst).flatten

/-- Key of one entry of the `parts` map: attribute-keyed entries use the
attribute name (a string), text-node entries use the child index (a
number) — `Map` keys of different types never collide. -/
inductive PartKey where
  | attr (name : List Char)
  | child (i : Nat)
deriving DecidableEq, Repr

/-- Exceptions thrown while parsing. -/
inductive ParseError where
  | jsSyntaxError (msg : List Char)
  | jsTypeError (msg : List Char)
deriving DecidableEq, Repr

/-- The configuration options read by `parseParts` and
`contextSourceCode`. -/
structure ParseCfg where
  constantExp : Option (List Char)
  eventHandlerExp : Option (List Char)
  watchExp : Option (List Char)
  eventName : List Char
  camelCaseEvents : Bool
  tagsName : List Char
deriving DecidableEq, Repr

/-- The shipped defaults of `configs.js`: `constantExp = 'const-'`,
`watchExp = 'watch-'`, `eventName = 'event'`, `tagsName = 'tags'`;
`eventHandlerExp` and `camelCaseEvents` are not present in `DEFAULTS`,
so `configs.get` yields `undefined` (`none` / `false`) for them. -/
def defaultConfigs : ParseCfg :=
  { constantExp := some ("const-".toList)
    eventHandlerExp := none
    watchExp := some ("watch-".toList)
    eventName := "event".toList
    camelCaseEvents := false
    tagsName := "tags".toList }

/-- The "parse result" object accumulated by `parseParts`. -/
structure ParseResult where
  constants : List (List Char × List Char)
  eventListeners : List (List Char × List Char)
  forVariableNames : List (List Char)
  isAsync : Bool
  parts : List (PartKey × List Char)
  parsedAttributeNames : List (List Char)
  parsedChildNodes : List Nat
  watches : List (List Char × List Char)
deriving DecidableEq, Repr

/-- The empty parse result built at the top of `parseParts`. -/
def emptyParseResult : ParseResult :=
  ⟨[], [], [], false, [], [], [], []⟩

/-- One iteration of the attribute loop of `parseParts`.  The thrown
`SyntaxError` (event-handler value wrapped in expression delimiters)
and the `TypeError` that `joinFragments(null, true)` would raise are
embedded as `Except.error`. -/
def attrStep (cfg : ParseCfg) (isTemplate : Bool) (st : ParseResult)
    (p : List Char × List Char) : Except ParseError ParseResult :=
  let name := p.1
  let constantName := searchName name cfg.constantExp
  let eventName0 := searchName name cfg.eventHandlerExp
  let watchName := searchName name cfg.watchExp
  let isConstant := constantName.isSome
  let isEventHandler := eventName0.isSome
  let isFor := name = "for".toList ∧ isTemplate
  let isWatch := watchName.isSome
  let value := if isEventHandler then jsTrim p.2 else p.2
  if isEventHandler ∧ startsWithL ("$\x7b".toList) value ∧ endsWithL ("\x7d".toList) value then
    Except.error (ParseError.jsSyntaxError
      ("Event handlers should not start with \"$\x7b\" and end with \"\x7d\"".toList))
  else
    let fragments := if isEventHandler then none else splitFragments value
    let hasFragments := fragments.isSome
    if ¬hasFragments ∧ ¬isConstant ∧ ¬isEventHandler ∧ ¬isFor ∧ ¬isWatch then
      Except.ok st
    else
      let frags := fragments.getD []
      let st := { st with
        parsedAttributeNames := st.parsedAttributeNames ++ [name],
        isAsync := st.isAsync ||
          (hasFragments && (isConstant || isWatch) && frags.any fragmentHasAwait) }
      if isConstant then
        let v := if hasFragments then joinFragments frags false else jsonStringify value
        Except.ok { st with constants := aset st.constants (camelCase (constantName.getD [])) v }
      else if isWatch then
        let v :=
          if hasFragments then joinFragments frags false
          else
            let isArray := startsWithL ("[".toList) value && endsWithL ("]".toList) value
            let isObject := startsWithL ("\x7b".toList) value && endsWithL ("\x7d".toList) value
            if !isArray && !isObject then jsonStringify value else value
        Except.ok { st with watches := aset st.watches (camelCase (watchName.getD [])) v }
      else if isEventHandler then
        let callbackCode := ('(' :: cfg.eventName) ++ (") => \x7b".toList) ++ value ++ ['\x7d']
        let en := if cfg.camelCaseEvents then camelCase (eventName0.getD []) else eventName0.getD []
        Except.ok { st with eventListeners := aset st.eventListeners en callbackCode }
      else if isFor then
        let v := jsTrim value
        let v := if startsWithL ("[".toList) v && endsWithL ("]".toList) v then
            (v.drop 1).dropLast else v
        let names := (v.splitOn ',').map jsTrim
        Except.ok { st with forVariableNames := st.forVariableNames ++ names }
      else
        match fragments with
        | none => Except.error (ParseError.jsTypeError ("fragments is null".toList))
        | some frags2 =>
          let nm := if startsWithL (".".toList) name then '.' :: camelCase (name.drop 1) else name
          Except.ok { st with parts := aset st.parts (PartKey.attr nm) (joinFragments frags2 true) }

/-- The contribution of one attribute to the `isAsync` flag: non-zero
exactly when the attribute is not an event handler (event handlers are
never tokenized), is a constant or watch declaration, and its tokenized
value contains a fragment with the `await` marker. -/
def awaitFlag (cfg : ParseCfg) (p : List Char × List Char) : Bool :=
  if (searchName p.1 cfg.eventHandlerExp).isSome then false
  else
    match splitFragments p.2 with
    | some frags =>
      ((searchName p.1 cfg.constantExp).isSome || (searchName p.1 cfg.watchExp).isSome) &&
        frags.any fragmentHasAwait
    | none => false

/-- The attribute loop of `parseParts`. -/
def processAttrs (cfg : ParseCfg) (isTemplate : Bool) :
    List (List Char × List Char) → ParseResult → Except ParseError ParseResult
  | [], st => Except.ok st
  | p :: rest, st =>
    match attrStep cfg isTemplate st p with
    | Except.error e => Except.error e
    | Except.ok st' => processAttrs cfg isTemplate rest st'

/-- A child node of the parsed element, as read by the child-node loop:
a text node carries its character data (`nodeType === Node.TEXT_NODE`,
`data`, `length`); any other node kind only occupies an index. -/
inductive ChildNode where
  | text (data : List Char)
  | elem
deriving DecidableEq, Repr

/-- The child-node loop of `parseParts`: starting at index `start`,
returns the text-node parts (keyed by child index) and the list of
parsed child-node indexes, in iteration order. -/
def processChildNodes : List ChildNode → Nat → List (PartKey × List Char) × List Nat
  | [], _ => ([], [])
  | node :: rest, i =>
    let r := processChildNodes rest (i + 1)
    match node with
    | ChildNode.text t =>
      if 3 < t.length then
        match splitFragments t with
        | some frags => ((PartKey.child i, joinFragments frags true) :: r.1, i :: r.2)
        | none => r
      else r
    | ChildNode.elem => r

/-- Embedding of `parseParts(element, window)` (first revision): run the
attribute loop, then — unless the element is a template element — the
child-node loop. -/
def parseParts (cfg : ParseCfg) (isTemplate : Bool)
    (attrs : List (List Char × List Char)) (childNodes : List ChildNode) :
    Except ParseError ParseResult :=
  match processAttrs cfg isTemplate attrs emptyParseResult with
  | Except.error e => Except.error e
  | Except.ok st =>
    if isTemplate then Except.ok st
    else
      let r := processChildNodes childNodes 0
      Except.ok { st with parts := st.parts ++ r.1,
                          parsedChildNodes := st.parsedChildNodes ++ r.2 }

/-! ### Context compiler -/

/-- Source text of a `new Map([...])` literal, as assembled in
`contextSourceCode` for event listeners and watches. -/
def mapLiteralSrc (m : List (List Char × List Char)) : List Char :=
  "new Map([".toList ++
    List.intercalate (",".toList)
      (m.map (fun p => ("[\"".toList) ++ p.1 ++ ("\", ".toList) ++ p.2 ++ ("]".toList))) ++
    "])".toList

/-- `JSON.stringify` of a part key: attribute keys are strings, child
keys are numbers. -/
def partKeySrc : PartKey → List Char
  | PartKey.attr name => jsonStringify name
  | PartKey.child i => (Nat.repr i).toList

/-- Embedding of `contextSourceCode(parseResult, options)`. -/
def contextSourceCode (cfg : ParseCfg) (iterationConstants : List (List Char))
    (r : ParseResult) : List Char :=
  let constLines0 := [("const [host, data, iterationData, ".toList) ++ cfg.tagsName ++
    ("] = arguments;".toList)]
  let constLines1 :=
    if 0 < iterationConstants.length then
      constLines0 ++ [("const \x7b ".toList) ++
        List.intercalate (", ".toList) iterationConstants ++
        (" \x7d = iterationData || \x7b\x7d;".toList)]
    else constLines0
  let constLines := constLines1 ++
    r.constants.map (fun p => ("const ".toList) ++ p.1 ++ (" = ".toList) ++ p.2 ++ (";".toList))
  let constantNames := iterationConstants ++ r.constants.map (fun p => p.1)
  let ctx0 := [("constants".toList,
    ("\x7b ".toList) ++
      List.intercalate (", ".toList) (constantNames ++ ["host".toList, "data".toList]) ++
      (" \x7d".toList))]
  let ctx1 := if 0 < r.eventListeners.length then
      ctx0 ++ [("eventListeners".toList, mapLiteralSrc r.eventListeners)] else ctx0
  let ctx2 := if 0 < r.forVariableNames.length then
      ctx1 ++ [("forVariableNames".toList,
        ("[".toList) ++ List.intercalate (",".toList) (r.forVariableNames.map jsonStringify) ++
        ("]".toList))]
    else ctx1
  let ctx3 := if 0 < r.watches.length then
      ctx2 ++ [("watches".toList, mapLiteralSrc r.watches)] else ctx2
  let ctx := ctx3 ++ [("parts".toList,
    "new Map([".toList ++
      List.intercalate (",".toList)
        (r.parts.map (fun p => ("[".toList) ++ partKeySrc p.1 ++ (", ".toList) ++ p.2 ++ ("]".toList))) ++
      "])".toList)]
  ("\t".toList) ++ List.intercalate ("\n\t".toList) constLines ++
    ("\n\n\treturn \x7b\n\t\t".toList) ++
    List.intercalate (",\n\t\t".toList) (ctx.map (fun p => p.1 ++ (": ".toList) ++ p.2)) ++
    ("\n\t\x7d;".toList)

/-- Whether `createContextFunction` compiles the source with the
`AsyncFunction` constructor (an awaitable callable) or the ordinary
`Function` constructor. -/
inductive FnKind where
  | asyncFn
  | syncFn
deriving DecidableEq, Repr

/-- Embedding of `createContextFunction(parseResult, options)`: the kind
of constructor chosen (async iff `parseResult.isAsync`) together with
the generated source. -/
def createContextFunction (cfg : ParseCfg) (iterationConstants : List (List Char))
    (r : ParseResult) : FnKind × List Char :=
  (if r.isAsync then FnKind.asyncFn else FnKind.syncFn,
   contextSourceCode cfg iterationConstants r)

/-! ### Cleanup registry (`sweep.js`)

Elements are identified by `Nat`.  The cleanup callbacks of an element
are opaque tokens (`Nat`); `sweepElement` appends the executed tokens to
a `trace`, in queue (insertion) order. -/

/-- State of the cleanup registry: the per-element callback queues
(`queues` `WeakMap`), the set of elements carrying the sweep-flag
attribute, and the trace of executed callbacks. -/
structure SweepState where
  queues : List (Nat × List Nat)
  flags : List Nat
  trace : List Nat
deriving DecidableEq, Repr

/-- Embedding of `addCleanupFunction(element, callback)`: create the
queue (and set the flag attribute) on first use; `Set.prototype.add`
ignores an already-present callback. -/
def addCleanupFunction (s : SweepState) (el cb : Nat) : SweepState :=
  match alookup s.queues el with
  | none =>
    { queues := aset s.queues el [cb],
      flags := if el ∈ s.flags then s.flags else s.flags ++ [el],
      trace := s.trace }
  | some q =>
    { s with queues := aset s.queues el (if cb ∈ q then q else q ++ [cb]) }

/-- Embedding of `sweepElement(element)`: run every queued callback,
then clear and discard the queue and remove the flag attribute. -/
def sweepElement (s : SweepState) (el : Nat) : SweepState :=
  match alookup s.queues el with
  | none => s
  | some q =>
    { queues := aerase s.queues el,
      flags := s.flags.filter (fun x => x != el),
      trace := s.trace ++ q }

/-! ### Watch registry (`Watch.js`)

Elements and watcher elements are `Nat`s, event names are strings.
`Watch` instances get fresh identifiers from `nextId`; `listeners`
records every `addEventListener` call on a watched element, and
`cleanups` records every `addCleanupFunction` registration
descriptively. -/

/-- Cleanup registrations made by the watch registry. -/
inductive CleanupAct where
  | clearElementWatches (el : Nat)
  | removeWatchListener (el : Nat) (eventName : List Char) (wid : Nat)
  | deleteWatcher (wid : Nat) (watcher : Nat)
deriving DecidableEq, Repr

/-- One `Watch` instance: its `watchers` map from watcher element to the
set of `{ selector, parts }` options objects (each `addWatcher` call
adds a fresh object, so the set grows by one per call). -/
structure WatchEntry where
  watchers : List (Nat × List (Option (List Char) × Nat))
deriving DecidableEq, Repr

/-- State of the watch registry. -/
structure WatchState where
  watchMaps : List (Nat × List (List Char × Nat))
  entries : List (Nat × WatchEntry)
  listeners : List (Nat × List Char × Nat)
  cleanups : List (Nat × CleanupAct)
  nextId : Nat
deriving DecidableEq, Repr

/-- Embedding of the `Watch` constructor: ensure the element's watch
map exists (registering its cleanup on creation), bind the event name
to the new instance, install exactly one event listener, and register
the listener-removal cleanup. -/
def watchConstruct (s : WatchState) (el : Nat) (ev : List Char) : Nat × WatchState :=
  let wid := s.nextId
  let wmcl :=
    match alookup s.watchMaps el with
    | none => (([] : List (List Char × Nat)),
               s.cleanups ++ [(el, CleanupAct.clearElementWatches el)])
    | some m => (m, s.cleanups)
  (wid,
   { watchMaps := aset s.watchMaps el (aset wmcl.1 ev wid),
     entries := s.entries ++ [(wid, ⟨[]⟩)],
     listeners := s.listeners ++ [(el, ev, wid)],
     cleanups := wmcl.2 ++ [(el, CleanupAct.removeWatchListener el ev wid)],
     nextId := wid + 1 })

/-- Embedding of `Watch.for(element, eventName)`: return the registered
instance if one exists, otherwise construct a new one. -/
def watchFor (s : WatchState) (el : Nat) (ev : List Char) : Nat × WatchState :=
  match alookup s.watchMaps el with
  | none => watchConstruct s el ev
  | some m =>
    match alookup m ev with
    | none => watchConstruct s el ev
    | some wid => (wid, s)

/-- The two-level lookup `watches.get(element)?.get(eventName)`:
the watch instance registered for the pair `(el, ev)`, if any. -/
def watchLookup (s : WatchState) (el : Nat) (ev : List Char) : Option Nat :=
  match alookup s.watchMaps el with
  | none => none
  | some m => alookup m ev

/-- Embedding of `watch.addWatcher(watcher, { selector, parts })`. -/
def addWatcher (s : WatchState) (wid watcher : Nat) (selector : Option (List Char))
    (parts : Nat) : WatchState :=
  match alookup s.entries wid with
  | none => s
  | some entry =>
    let oscl :=
      match alookup entry.watchers watcher with
      | none => (([] : List (Option (List Char) × Nat)),
                 s.cleanups ++ [(watcher, CleanupAct.deleteWatcher wid watcher)])
      | some os => (os, s.cleanups)
    { s with
      entries := aset s.entries wid ⟨aset entry.watchers watcher (oscl.1 ++ [(selector, parts)])⟩,
      cleanups := oscl.2 }

/-- The watch-registration sequence performed by `initializeElement`:
`Watch.for(el, eventName)` followed by `watch.addWatcher(element,
{ selector, parts })`. -/
def registerWatch (s : WatchState) (el : Nat) (ev : List Char) (watcher : Nat)
    (selector : Option (List Char)) (parts : Nat) : WatchState :=
  let r := watchFor s el ev
  addWatcher r.2 r.1 watcher selector parts

/-- Number of event listeners installed on `el` for `ev`. -/
def listenerCount (s : WatchState) (el : Nat) (ev : List Char) : Nat :=
  (s.listeners.filter (fun t => t.1 == el && t.2.1 == ev)).length

/-- The watch-instance identifiers bound to the pair `(el, ev)`. -/
def pairEntryIds (s : WatchState) (el : Nat) (ev : List Char) : List Nat :=
  match alookup s.watchMaps el with
  | none => []
  | some m => (m.filter (fun q => q.1 == ev)).map (fun q => q.2)

/-! ### Iteration entry point (`infuse`, second revision)

Templates are embedded as trees: a template carries its identifier, its
compiled context (if its markup carried a context-function id), the
context-carrying elements of its content, and the nested placeholder
templates.  Context functions are modeled as already closed over their
`host`/`data` arguments (the claims do not concern data flow), so a
part callback is a `Unit → Value` function.  Every DOM side effect is
recorded in an effect trace, in execution order. -/

/-- JavaScript values, as far as `infuse` inspects them: the truthiness
check and the `typeof collection.forEach === 'function'` duck-type
test. -/
inductive Value where
  | undef
  | nullv
  | boolv (b : Bool)
  | numv (n : Int)
  | strv (s : List Char)
  | collection (items : List Value)
  | plainObj

/-- JavaScript truthiness of an embedded value. -/
def truthy : Value → Bool
  | Value.undef => false
  | Value.nullv => false
  | Value.boolv b => b
  | Value.numv n => n != 0
  | Value.strv s => !s.isEmpty
  | Value.collection _ => true
  | Value.plainObj => true

/-- The duck-type test `typeof collection.forEach === 'function'`. -/
def hasForEachMethod : Value → Bool
  | Value.collection _ => true
  | _ => false

/-- A value stored in a compiled context's `parts` map: a part callback
(a function) or some other value. -/
inductive PartVal where
  | pfn (f : Unit → Value)
  | pval (v : Value)

/-- A compiled context, as used by `infuse`: its `parts` map and the
`forVariableNames` array. -/
structure CtxModel where
  parts : List (List Char × PartVal)
  forVariableNames : List (List Char)

/-- A parsed template: identifier, optional compiled context, the
context-carrying elements of its content, and nested placeholder
templates. -/
inductive TemplateModel where
  | mk (tid : Nat) (context : Option CtxModel) (contentElements : List Nat)
      (nested : List TemplateModel)

/-- The template's identifier. -/
def TemplateModel.tid : TemplateModel → Nat
  | TemplateModel.mk t _ _ _ => t

/-- The template's compiled context, if any. -/
def TemplateModel.context : TemplateModel → Option CtxModel
  | TemplateModel.mk _ c _ _ => c

/-- DOM side effects performed by the runtime, in execution order. -/
inductive Effect where
  | removeCtxAttr (el : Nat)
  | setContext (el : Nat)
  | addCleanup (el : Nat)
  | cloneContent (tid : Nat)
  | initElement (el : Nat)
deriving DecidableEq, Repr

/-- Exceptions thrown by `infuse`. -/
inductive InfuseError where
  | typeError (msg : List Char)
deriving DecidableEq, Repr

/-- Message of the `TypeError` thrown when the `each` part is invalid or
missing. -/
def eachMissingMsg : List Char :=
  "The template attribute \"each\" is either invalid or missing.".toList

/-- Message of the `TypeError` thrown when the `each` expression
evaluates to a non-iterable value. -/
def eachInvalidMsg : List Char :=
  ("Evaluating the \"each\" expression resulted in an invalid value. " ++
   "The expression must return a value that has a \"forEach\" method, " ++
   "for instance: an array, a Map, or a Set.").toList

/-- Effects of `createContext(template, ...)`: nothing when the element
carries no context-function id; otherwise remove the id attribute,
store the created context, and register its cleanup. -/
def createContextEffects (t : TemplateModel) : List Effect :=
  match t.context with
  | none => []
  | some _ => [Effect.removeCtxAttr t.tid, Effect.setContext t.tid, Effect.addCleanup t.tid]

mutual

/-- Embedding of `infuseTemplate(host, template, data, iterationData)`:
clone the template content, initialize every context-carrying element,
then recursively infuse nested placeholder templates (an exception
aborts the placeholder loop and propagates). -/
def infuseTemplate (t : TemplateModel) : List Effect × Except InfuseError Unit :=
  match t with
  | TemplateModel.mk tid _ els nested =>
    let pr := infuseNested nested
    (Effect.cloneContent tid :: els.map Effect.initElement ++ pr.1, pr.2)
termination_by (sizeOf t, 0, 0)

/-- The placeholder loop of `infuseTemplate`. -/
def infuseNested : List TemplateModel → List Effect × Except InfuseError Unit
  | [] => ([], Except.ok ())
  | nt :: rest =>
    let r := infuse nt
    match r.2 with
    | Except.error e => (r.1, Except.error e)
    | Except.ok _ =>
      let rr := infuseNested rest
      (r.1 ++ rr.1, rr.2)
termination_by l => (sizeOf l, 3, 0)

/-- The `collection.forEach` loop of `infuse`: clone and infuse the
template once per item. -/
def infuseIter (t : TemplateModel) : List Value → List Effect × Except InfuseError Unit
  | [] => ([], Except.ok ())
  | _ :: rest =>
    let r := infuseTemplate t
    match r.2 with
    | Except.error e => (r.1, Except.error e)
    | Except.ok _ =>
      let rr := infuseIter t rest
      (r.1 ++ rr.1, rr.2)
termination_by l => (sizeOf t, 1, sizeOf l)

/-- Embedding of `infuse(host, template, data, iterationData)` (second
revision): create a context for the template itself; without one,
delegate to `infuseTemplate`; with one, look up the `each` part, check
that it is a function, evaluate it, check the result for a `forEach`
method, and iterate — the two `TypeError`s are thrown before any
cloning. -/
def infuse (t : TemplateModel) : List Effect × Except InfuseError Unit :=
  match t.context with
  | none => infuseTemplate t
  | some ctx =>
    let ceff := createContextEffects t
    match alookup ctx.parts ("each".toList) with
    | some (PartVal.pfn f) =>
      let collection := f ()
      if truthy collection && hasForEachMethod collection then
        match collection with
        | Value.collection items =>
          let body := infuseIter t items
          (ceff ++ body.1, body.2)
        | _ => (ceff, Except.error (InfuseError.typeError eachInvalidMsg))
      else (ceff, Except.error (InfuseError.typeError eachInvalidMsg))
    | _ => (ceff, Except.error (InfuseError.typeError eachMissingMsg))
termination_by (sizeOf t, 2, 0)

end

/-! ## Lemmas about the fragment tokenizer -/

theorem flushAt_of_ne {input : List Char} {i : Nat} {st : SFState}
    (h : i + 1 ≠ input.length) : flushAt input i st = st := by
  unfold flushAt
  simp [h]

theorem flushAt_of_last {input : List Char} {i : Nat} {st : SFState}
    (h1 : i + 1 = input.length) (h2 : st.h ≤ i) :
    flushAt input i st = { st with fragments := st.fragments ++ [Fragment.str (input.drop st.h)] } := by
  unfold flushAt
  simp [h1, h2]

theorem flushAt_of_hgt {input : List Char} {i : Nat} {st : SFState}
    (h : ¬ st.h ≤ i) : flushAt input i st = st := by
  unfold flushAt
  simp [h]

theorem scanN_succ (input : List Char) (n i : Nat) (st : SFState) :
    scanN input (n + 1) i st = scanN input n (i + 1) (step input i st) := rfl

theorem scanN_add (input : List Char) (m n i : Nat) (st : SFState) :
    scanN input (m + n) i st = scanN input n (i + m) (scanN input m i st) := by
  induction m generalizing i st with
  | zero => simp [scanN]
  | succ m ih =>
    have h1 : m + 1 + n = (m + n) + 1 := by omega
    rw [h1, scanN_succ, ih, scanN_succ]
    have h2 : i + 1 + m = i + (m + 1) := by omega
    rw [h2]

theorem scanN_snoc (input : List Char) (n i : Nat) (st : SFState) :
    scanN input (n + 1) i st = step input (i + n) (scanN input n i st) := by
  rw [scanN_add input n 1 i st]
  rfl

theorem scanN_fix {input : List Char} {m i : Nat} {st : SFState}
    (h : ∀ j, i ≤ j → j < i + m → step input j st = st) :
    scanN input m i st = st := by
  induction m generalizing i with
  | zero => rfl
  | succ m ih =>
    rw [scanN_succ, h i (Nat.le_refl i) (by omega)]
    exact ih (fun j hj1 hj2 => h j (by omega) (by omega))

theorem step_otherChar {input : List Char} {j : Nat} {st : SFState} {ch : Char}
    (hb : input[j]? = some ch) (h1 : ch ≠ '\x60') (h2 : ch ≠ '\x7b') (h3 : ch ≠ '\x7d') :
    step input j st = flushAt input j st := by
  unfold step
  rw [hb]
  simp [h1, h2, h3]

theorem step_tickInExpr {input : List Char} {j : Nat} {st : SFState} {e0 : Nat}
    (hb : input[j]? = some '\x60') (hes : st.expressionStart = some e0) :
    step input j st = flushAt input j st := by
  unfold step
  rw [hb]
  simp [hes]

theorem step_braceInExpr {input : List Char} {j : Nat} {st : SFState} {e0 : Nat}
    (hb : input[j]? = some '\x7b') (hes : st.expressionStart = some e0) :
    step input j st = flushAt input j { st with openedBraces := st.openedBraces + 1 } := by
  unfold step
  rw [hb]
  simp [hes]

theorem step_dollarBrace {input : List Char} {j : Nat} {st : SFState}
    (hb : input[j]? = some '\x7b') (hj : j ≠ 0) (ha : input[j-1]? = some '$')
    (hes : st.expressionStart = none) :
    step input j st = flushAt input j { st with expressionStart := some (j-1) } := by
  unfold step
  rw [hb]
  simp [hes, hj, ha]

theorem step_braceNoDollar {input : List Char} {j : Nat} {st : SFState}
    (hb : input[j]? = some '\x7b') (hes : st.expressionStart = none)
    (ha : j = 0 ∨ input[j-1]? ≠ some '$') :
    step input j st = flushAt input j st := by
  unfold step
  rw [hb]
  rcases ha with ha | ha
  · simp [hes, ha]
  · by_cases hj : j = 0
    · simp [hes, hj]
    · simp [hes, hj, ha]

theorem step_closeBraceNoExpr {input : List Char} {j : Nat} {st : SFState}
    (hb : input[j]? = some '\x7d') (hes : st.expressionStart = none) :
    step input j st = flushAt input j st := by
  unfold step
  rw [hb]
  simp [hes]

theorem step_closeBraceNested {input : List Char} {j : Nat} {st : SFState} {e0 : Nat}
    (hb : input[j]? = some '\x7d') (hes : st.expressionStart = some e0)
    (hob : st.openedBraces ≠ 0) :
    step input j st = flushAt input j { st with openedBraces := st.openedBraces - 1 } := by
  unfold step
  rw [hb]
  simp [hes, hob]

theorem step_closeExpr {input : List Char} {j : Nat} {st : SFState} {e0 : Nat}
    (hb : input[j]? = some '\x7d') (hes : st.expressionStart = some e0)
    (hob : st.openedBraces = 0) (hts : st.templateStart = none) :
    step input j st = flushAt input j { st with
      fragments := (if st.h < e0 then st.fragments ++ [Fragment.str (sub input st.h e0)]
                    else st.fragments)
        ++ [Fragment.expr (containsSeq awaitMarker (jsTrim (sub input (e0+2) j)))
              (jsTrim (sub input (e0+2) j))],
      h := j + 1, expressionStart := none } := by
  unfold step
  rw [hb]
  simp [hes, hob, hts]

theorem step_openTick {input : List Char} {j : Nat} {st : SFState}
    (hb : input[j]? = some '\x60') (hes : st.expressionStart = none)
    (hts : st.templateStart = none) (hc : input[j+1]? ≠ some '\x60') :
    step input j st = flushAt input j { st with templateStart := some j } := by
  unfold step
  rw [hb]
  simp [hes, hts, hc]

theorem step_escapedTick {input : List Char} {j : Nat} {st : SFState} {t0 : Nat}
    (hb : input[j]? = some '\x60') (hes : st.expressionStart = none)
    (hts : st.templateStart = some t0) (hj : j ≠ 0) (ha : input[j-1]? = some '\\') :
    step input j st = st := by
  unfold step
  rw [hb]
  simp [hes, hts, hj, ha]

theorem step_closeTick {input : List Char} {j : Nat} {st : SFState} {t0 : Nat}
    (hb : input[j]? = some '\x60') (hes : st.expressionStart = none)
    (hts : st.templateStart = some t0) (ha : j = 0 ∨ input[j-1]? ≠ some '\\') :
    step input j st = flushAt input j { st with
      fragments := (if st.h < t0 then st.fragments ++ [Fragment.str (sub input st.h t0)]
                    else st.fragments)
        ++ [Fragment.tmpl none false (sub input t0 (j+1))],
      h := j + 1, templateStart := none } := by
  unfold step
  rw [hb]
  rcases ha with ha | ha
  · simp [hes, hts, ha]
  · by_cases hj : j = 0
    · simp [hes, hts, hj]
    · simp [hes, hts, hj, ha]

theorem containsSeq_of_get2 {l : List Char} {j : Nat} {a b : Char}
    (h1 : l[j]? = some a) (h2 : l[j+1]? = some b) :
    containsSeq (a :: b :: []) l = true := by
  induction l generalizing j with
  | nil => simp at h1
  | cons c rest ih =>
    cases j with
    | zero =>
      rw [List.getElem?_cons_zero] at h1
      rw [List.getElem?_cons_succ] at h2
      obtain rfl : c = a := by simpa using h1
      cases rest with
      | nil => simp at h2
      | cons d rest2 =>
        rw [List.getElem?_cons_zero] at h2
        obtain rfl : d = b := by simpa using h2
        simp [containsSeq, List.isPrefixOf]
    | succ j =>
      rw [List.getElem?_cons_succ] at h1 h2
      rw [containsSeq, ih h1 h2]
      simp

/-! ## Claim C1 -/

/-- Claim C1, counterexample: the empty string contains no expression
syntax and no back-tick interpolation block, yet `splitFragments`
returns the empty array (`some []`), not the "no fragments" sentinel
`none` — the character loop never runs, so the single whole-input
string fragment that the final check tests for is never pushed. -/
theorem splitFragments_empty_counterexample :
    ('\x60' ∉ ([] : List Char)) ∧ containsSeq ('$' :: '\x7b' :: []) [] = false ∧
      splitFragments [] = some [] ∧ splitFragments ([] : List Char) ≠ none := by
  decide

/-- Claim C1 (amended to non-empty inputs): for every non-empty input
string with no back-tick character and no `$\x7b` occurrence,
`splitFragments` returns the "no fragments" sentinel `none`, never a
one-element array. -/
theorem splitFragments_noSyntax_none (s : List Char) (h0 : s ≠ [])
    (h1 : '\x60' ∉ s) (h2 : containsSeq ('$' :: '\x7b' :: []) s = false) :
    splitFragments s = none := by
  obtain ⟨n, hn⟩ : ∃ n, s.length = n + 1 := by
    cases hs : s with
    | nil => exact absurd hs h0
    | cons a t => exact ⟨t.length, by simp [hs]⟩
  have hstep : ∀ j, j < s.length → step s j initState = flushAt s j initState := by
    intro j hj
    obtain ⟨ch, hch⟩ : ∃ ch, s[j]? = some ch := ⟨s[j], List.getElem?_eq_getElem hj⟩
    by_cases hbr : ch = '\x7b'
    · subst hbr
      apply step_braceNoDollar hch rfl
      by_cases hj0 : j = 0
      · exact Or.inl hj0
      · refine Or.inr (fun hdd => ?_)
        have hj1 : (j - 1) + 1 = j := by omega
        have := containsSeq_of_get2 hdd (by rw [hj1]; exact hch)
        rw [h2] at this
        exact Bool.noConfusion this
    · by_cases hcb : ch = '\x7d'
      · subst hcb
        exact step_closeBraceNoExpr hch rfl
      · refine step_otherChar hch (fun htk => ?_) hbr hcb
        subst htk
        exact h1 (List.getElem?_mem hch)
  have hfix : scanN s n 0 initState = initState := by
    apply scanN_fix
    intro j hj1 hj2
    rw [hstep j (by omega), flushAt_of_ne (by omega)]
  have hlast : scanN s s.length 0 initState =
      { initState with fragments := [Fragment.str s] } := by
    rw [hn, scanN_snoc, Nat.zero_add, hfix, hstep n (by omega),
      flushAt_of_last (by omega) (by exact Nat.zero_le n)]
    simp [initState]
  unfold splitFragments
  rw [hlast]
  simp

/-- Witness for the amended claim C1 at a concrete no-syntax input. -/
theorem splitFragments_noSyntax_none_witness :
    splitFragments ("String with no fragments".toList) = none :=
  splitFragments_noSyntax_none _ (by decide) (by decide) (by decide)

/-! ## Claim C5 -/

theorem exprInput_get {e : List Char} {k : Nat} (hk : k < e.length) :
    ('$' :: '\x7b' :: (e ++ ['\x7d']))[2+k]? = e[k]? := by
  rw [show 2+k = k+1+1 from by omega]
  rw [List.getElem?_cons_succ, List.getElem?_cons_succ, List.getElem?_append]
  simp [hk]

theorem exprInput_get_last (e : List Char) :
    ('$' :: '\x7b' :: (e ++ ['\x7d']))[2+e.length]? = some '\x7d' := by
  rw [show 2+e.length = e.length+1+1 from by omega]
  rw [List.getElem?_cons_succ, List.getElem?_cons_succ, List.getElem?_append]
  simp

theorem scan_exprBody (e : List Char) (hbal : braceBalancedPrefixes e)
    (k : Nat) (hk : k ≤ e.length) :
    scanN ('$' :: '\x7b' :: (e ++ ['\x7d'])) k 2 ⟨0, none, some 0, 0, []⟩ =
      ⟨0, none, some 0, (e.take k).count '\x7b' - (e.take k).count '\x7d', []⟩ := by
  induction k with
  | zero => simp [scanN]
  | succ k ih =>
    rw [scanN_snoc, ih (by omega)]
    have hklt : k < e.length := by omega
    obtain ⟨ch, hch⟩ : ∃ ch, e[k]? = some ch := ⟨e[k], List.getElem?_eq_getElem hklt⟩
    have hch2 : ('$' :: '\x7b' :: (e ++ ['\x7d']))[2+k]? = some ch := by
      rw [exprInput_get (by omega), hch]
    have htake : e.take (k+1) = e.take k ++ [ch] := by
      rw [List.take_succ, hch]
      rfl
    have hlen : ('$' :: '\x7b' :: (e ++ ['\x7d'])).length = e.length + 3 := by simp
    have hne : (2+k) + 1 ≠ ('$' :: '\x7b' :: (e ++ ['\x7d'])).length := by
      rw [hlen]; omega
    by_cases hbr : ch = '\x7b'
    · subst hbr
      rw [step_braceInExpr hch2 rfl, flushAt_of_ne hne]
      have : (e.take (k+1)).count '\x7b' - (e.take (k+1)).count '\x7d' =
          ((e.take k).count '\x7b' - (e.take k).count '\x7d') + 1 := by
        rw [htake, List.count_append, List.count_append]
        have hb := hbal k (by omega)
        simp [List.count_cons]
        omega
      rw [this]
    · by_cases hcb : ch = '\x7d'
      · subst hcb
        have hge : (e.take k).count '\x7d' + 1 ≤ (e.take k).count '\x7b' := by
          have hb1 := hbal (k+1) (by omega)
          rw [htake, List.count_append, List.count_append] at hb1
          simp [List.count_cons] at hb1
          omega
        rw [step_closeBraceNested hch2 rfl
            (show (e.take k).count '\x7b' - (e.take k).count '\x7d' ≠ 0 from by omega),
          flushAt_of_ne hne]
        have : (e.take (k+1)).count '\x7b' - (e.take (k+1)).count '\x7d' =
            ((e.take k).count '\x7b' - (e.take k).count '\x7d') - 1 := by
          rw [htake, List.count_append, List.count_append]
          simp [List.count_cons]
          omega
        rw [this]
      · have hcount : (e.take (k+1)).count '\x7b' = (e.take k).count '\x7b' ∧
            (e.take (k+1)).count '\x7d' = (e.take k).count '\x7d' := by
          rw [htake, List.count_append, List.count_append]
          simp [List.count_cons, hbr, hcb]
        by_cases htk : ch = '\x60'
        · subst htk
          rw [step_tickInExpr hch2 rfl, flushAt_of_ne hne, hcount.1, hcount.2]
        · rw [step_otherChar hch2 htk hbr hcb, flushAt_of_ne hne, hcount.1, hcount.2]

/-- Claim C5, counterexample: at the claim's own example input
`$\x7b \x7ba:1\x7d \x7d` the nested braces indeed do not close the span
early, but the emitted expression code is the *trimmed* text
`\x7ba:1\x7d`, not the exact text ` \x7ba:1\x7d ` standing between the
opening `$\x7b` and the matching close brace. -/
theorem splitFragments_nestedBraces_counterexample :
    splitFragments ("$\x7b \x7ba:1\x7d \x7d".toList) =
      some [Fragment.expr false ("\x7ba:1\x7d".toList)] ∧
    ("\x7ba:1\x7d".toList : List Char) ≠ " \x7ba:1\x7d ".toList := by
  decide

/-- Claim C5 (amended: the code is the text between the delimiters
trimmed of surrounding whitespace): for every expression body `e` whose
braces are balanced, scanning `$\x7b e \x7d` closes the expression only
at the final close brace at nesting depth zero — inner braces are
absorbed by the nesting counter — and emits a single expression
fragment whose code is `e` trimmed, with its `hasAwait` flag from the
`await ` search. -/
theorem splitFragments_nestedBraces (e : List Char)
    (hpre : braceBalancedPrefixes e)
    (hbal : e.count '\x7b' = e.count '\x7d') :
    splitFragments ('$' :: '\x7b' :: (e ++ ['\x7d'])) =
      some [Fragment.expr (containsSeq awaitMarker (jsTrim e)) (jsTrim e)] := by
  have hlen : ('$' :: '\x7b' :: (e ++ ['\x7d'])).length = e.length + 3 := by simp
  have h0 : step ('$' :: '\x7b' :: (e ++ ['\x7d'])) 0 initState = initState := by
    rw [step_otherChar (show ('$' :: '\x7b' :: (e ++ ['\x7d']))[0]? = some '$' by simp)
        (by decide) (by decide) (by decide)]
    exact flushAt_of_ne (by rw [hlen]; omega)
  have h1 : step ('$' :: '\x7b' :: (e ++ ['\x7d'])) 1 initState = ⟨0, none, some 0, 0, []⟩ := by
    rw [step_dollarBrace (show ('$' :: '\x7b' :: (e ++ ['\x7d']))[1]? = some '\x7b' by simp)
        (by omega) (show ('$' :: '\x7b' :: (e ++ ['\x7d']))[1-1]? = some '$' by simp) rfl]
    rw [flushAt_of_ne (by rw [hlen]; omega)]
    rfl
  have hbody := scan_exprBody e hpre e.length (Nat.le_refl _)
  rw [List.take_length] at hbody
  have hobz : e.count '\x7b' - e.count '\x7d' = 0 := by omega
  rw [hobz] at hbody
  have hsub : sub ('$' :: '\x7b' :: (e ++ ['\x7d'])) (0+2) (2+e.length) = e := by
    unfold sub
    have h2 : ('$' :: '\x7b' :: (e ++ ['\x7d'])).drop 2 = e ++ ['\x7d'] := rfl
    rw [h2, show 2+e.length-(0+2) = e.length from by omega]
    exact List.take_left e ['\x7d']
  have hfin : step ('$' :: '\x7b' :: (e ++ ['\x7d'])) (2+e.length) ⟨0, none, some 0, 0, []⟩ =
      ⟨2+e.length+1, none, none, 0,
        [Fragment.expr (containsSeq awaitMarker (jsTrim e)) (jsTrim e)]⟩ := by
    rw [step_closeExpr (exprInput_get_last e) rfl rfl rfl]
    rw [flushAt_of_hgt (by simp)]
    simp [hsub]
  have hscan : scanN ('$' :: '\x7b' :: (e ++ ['\x7d']))
      ('$' :: '\x7b' :: (e ++ ['\x7d'])).length 0 initState =
      ⟨2+e.length+1, none, none, 0,
        [Fragment.expr (containsSeq awaitMarker (jsTrim e)) (jsTrim e)]⟩ := by
    rw [hlen, show e.length + 3 = 2 + (e.length + 1) from by omega, scanN_add]
    have h2 : scanN ('$' :: '\x7b' :: (e ++ ['\x7d'])) 2 0 initState = ⟨0, none, some 0, 0, []⟩ := by
      show step _ 1 (step _ 0 initState) = _
      rw [h0, h1]
    rw [h2, Nat.zero_add, scanN_snoc, hbody, hfin]
  unfold splitFragments
  rw [hscan]
  simp

/-- Witness for the amended claim C5 at the concrete body ` \x7ba:1\x7d `. -/
theorem splitFragments_nestedBraces_witness :
    splitFragments ('$' :: '\x7b' :: ((" \x7ba:1\x7d ".toList) ++ ['\x7d'])) =
      some [Fragment.expr (containsSeq awaitMarker (jsTrim (" \x7ba:1\x7d ".toList)))
        (jsTrim (" \x7ba:1\x7d ".toList))] :=
  splitFragments_nestedBraces _ (by decide) (by decide)

/-! ## Claim C6 -/

theorem tickInput_get {body : List Char} {k : Nat} (hk : k < body.length) :
    ('\x60' :: (body ++ ['\x60']))[1+k]? = body[k]? := by
  rw [show 1+k = k+1 from by omega]
  rw [List.getElem?_cons_succ, List.getElem?_append]
  simp [hk]

theorem tickInput_get_last (body : List Char) :
    ('\x60' :: (body ++ ['\x60']))[1+body.length]? = some '\x60' := by
  rw [show 1+body.length = body.length+1 from by omega]
  rw [List.getElem?_cons_succ, List.getElem?_append]
  simp

/-- Claim C6: inside an open back-tick interpolation block, every
back-tick immediately preceded by a backslash is skipped (`continue`),
and the block is closed only by the next unescaped back-tick: when all
back-ticks of `body` are escaped (and `body` opens no expression and
does not end in a backslash), the whole input is emitted as one
template fragment whose text runs to the final, unescaped back-tick. -/
theorem splitFragments_escapedTick (body : List Char) (h0 : body ≠ [])
    (h1 : ∀ j, j < body.length → body[j]? = some '\x60' → 1 ≤ j ∧ body[j-1]? = some '\\')
    (h2 : containsSeq ('$' :: '\x7b' :: []) body = false)
    (h3 : body.getLast? ≠ some '\\') :
    splitFragments ('\x60' :: (body ++ ['\x60'])) =
      some [Fragment.tmpl none false ('\x60' :: (body ++ ['\x60']))] := by
  obtain ⟨m, hm⟩ : ∃ m, body.length = m + 1 := by
    cases hs : body with
    | nil => exact absurd hs h0
    | cons a t => exact ⟨t.length, by simp [hs]⟩
  have hlen : ('\x60' :: (body ++ ['\x60'])).length = body.length + 2 := by simp
  have hb0 : ∃ c0, body[0]? = some c0 ∧ c0 ≠ '\x60' := by
    have hblt : 0 < body.length := by omega
    refine ⟨body[0], List.getElem?_eq_getElem hblt, fun hc => ?_⟩
    have := h1 0 (by omega) (by rw [List.getElem?_eq_getElem (by omega), hc])
    omega
  have h0step : step ('\x60' :: (body ++ ['\x60'])) 0 initState =
      ⟨0, some 0, none, 0, []⟩ := by
    obtain ⟨c0, hc0, hc0ne⟩ := hb0
    rw [step_openTick (by simp) rfl rfl
        (by rw [show (0:Nat)+1 = 1+0 from rfl, tickInput_get (by omega), hc0]
            simp [hc0ne])]
    rw [flushAt_of_ne (by rw [hlen]; omega)]
    rfl
  have hfix : scanN ('\x60' :: (body ++ ['\x60'])) body.length 1 ⟨0, some 0, none, 0, []⟩ =
      ⟨0, some 0, none, 0, []⟩ := by
    apply scanN_fix
    intro j hj1 hj2
    obtain ⟨k, hk, hjk⟩ : ∃ k, k < body.length ∧ j = 1 + k := ⟨j - 1, by omega, by omega⟩
    subst hjk
    have hklt : k < body.length := by omega
    obtain ⟨ch, hch⟩ : ∃ ch, body[k]? = some ch := ⟨body[k], List.getElem?_eq_getElem hklt⟩
    have hch2 : ('\x60' :: (body ++ ['\x60']))[1+k]? = some ch := by
      rw [tickInput_get (by omega), hch]
    have hne : (1+k) + 1 ≠ ('\x60' :: (body ++ ['\x60'])).length := by
      rw [hlen]; omega
    by_cases htk : ch = '\x60'
    · subst htk
      obtain ⟨hk1, hkpre⟩ := h1 k (by omega) hch
      rw [step_escapedTick hch2 rfl rfl (by omega)
          (by rw [show 1+k-1 = 1+(k-1) from by omega, tickInput_get (by omega)]
              exact hkpre)]
    · by_cases hbr : ch = '\x7b'
      · subst hbr
        rw [step_braceNoDollar hch2 rfl ?_, flushAt_of_ne hne]
        by_cases hk0 : k = 0
        · refine Or.inr ?_
          subst hk0
          rw [show 1+0-1 = 0 from rfl]
          simp
        · refine Or.inr (fun hdd => ?_)
          rw [show 1+k-1 = 1+(k-1) from by omega, tickInput_get (by omega)] at hdd
          have := containsSeq_of_get2 hdd (by rw [show k-1+1 = k from by omega]; exact hch)
          rw [h2] at this
          exact Bool.noConfusion this
      · by_cases hcb : ch = '\x7d'
        · subst hcb
          rw [step_closeBraceNoExpr hch2 rfl, flushAt_of_ne hne]
        · rw [step_otherChar hch2 htk hbr hcb, flushAt_of_ne hne]
  have hfin : step ('\x60' :: (body ++ ['\x60'])) (1+body.length) ⟨0, some 0, none, 0, []⟩ =
      ⟨1+body.length+1, none, none, 0,
        [Fragment.tmpl none false ('\x60' :: (body ++ ['\x60']))]⟩ := by
    have hlast : ('\x60' :: (body ++ ['\x60']))[1+body.length-1]? ≠ some '\\' := by
      rw [show 1+body.length-1 = 1+(body.length-1) from by omega,
        tickInput_get (by omega)]
      rw [List.getLast?_eq_getElem? body] at h3
      exact h3
    rw [step_closeTick (tickInput_get_last body) rfl rfl (Or.inr hlast)]
    rw [flushAt_of_hgt (by simp)]
    have hsub : sub ('\x60' :: (body ++ ['\x60'])) 0 (1+body.length+1) =
        '\x60' :: (body ++ ['\x60']) := by
      unfold sub
      rw [List.drop_zero, Nat.sub_zero, show 1+body.length+1 = body.length+2 from by omega,
        ← hlen, List.take_length]
    simp [hsub]
  have hscan : scanN ('\x60' :: (body ++ ['\x60']))
      ('\x60' :: (body ++ ['\x60'])).length 0 initState =
      ⟨1+body.length+1, none, none, 0,
        [Fragment.tmpl none false ('\x60' :: (body ++ ['\x60']))]⟩ := by
    rw [hlen, show body.length + 2 = 1 + (body.length + 1) from by omega, scanN_add]
    have hone : scanN ('\x60' :: (body ++ ['\x60'])) 1 0 initState =
        ⟨0, some 0, none, 0, []⟩ := by
      show step _ 0 initState = _
      exact h0step
    rw [hone, Nat.zero_add, scanN_snoc, hfix, hfin]
  unfold splitFragments
  rw [hscan]
  simp

/-- Witness for claim C6 at the concrete body `a\\\x60b` (an escaped
back-tick between two letters). -/
theorem splitFragments_escapedTick_witness :
    splitFragments ('\x60' :: (("a\\\x60b".toList) ++ ['\x60'])) =
      some [Fragment.tmpl none false ('\x60' :: (("a\\\x60b".toList) ++ ['\x60']))] :=
  splitFragments_escapedTick _ (by decide) (by decide) (by decide) (by decide)

/-! ## Claim C9 -/

/-- Claim C9: for the empty input string the character loop never runs,
so `splitFragments` returns the empty array (`some []`) rather than the
`null` sentinel — a caller testing the result against `null` treats an
empty attribute value as having fragments. -/
theorem splitFragments_empty_eq_some_nil :
    splitFragments ([] : List Char) = some [] ∧ some ([] : List Fragment) ≠ none := by
  decide

/-! ## Claim C10 -/

/-- Claim C10, counterexample: for the (reachable) fragment list
`[expression with empty code, "x"]` the first fragment *is* an
expression fragment, yet `fragments[0].expression` is the empty string
and therefore falsy, so no `""` operand is prepended — the generated
source is `undefined + "x"`. -/
theorem joinFragments_emptyExpr_counterexample :
    splitFragments ("$\x7b\x7dx".toList) =
      some [Fragment.expr false [], Fragment.str ['x']] ∧
    1 < ([Fragment.expr false [], Fragment.str ['x']] : List Fragment).length ∧
    ([Fragment.expr false [], Fragment.str ['x']] : List Fragment).head? =
      some (Fragment.expr false []) ∧
    joinFragments [Fragment.expr false [], Fragment.str ['x']] false =
      "undefined + \"x\"".toList ∧
    ¬ startsWithL ("\"\"".toList)
      (joinFragments [Fragment.expr false [], Fragment.str ['x']] false) = true := by
  decide

/-- Claim C10 (amended: the first fragment must be an expression
fragment with non-empty code): `joinFragments` then prepends the
empty-string literal `""` as the first `+` operand of the generated
concatenation; a single-fragment list is emitted without any prefix. -/
theorem joinFragments_prefix (frags : List Fragment) (ha : Bool) (code : List Char)
    (h1 : 1 < frags.length) (h2 : frags.head? = some (Fragment.expr ha code))
    (h3 : code ≠ []) :
    joinFragments frags false =
      List.intercalate (' ' :: '+' :: ' ' :: [])
        (('"' :: '"' :: []) :: frags.map fragSrc) ∧
    ∀ f : Fragment, joinFragments [f] false = fragSrc f := by
  constructor
  · unfold joinFragments
    have hh : headExprTruthy frags = true := by
      unfold headExprTruthy
      rw [h2]
      simp [h3]
    simp [h1, hh]
  · intro f
    unfold joinFragments
    simp [headExprTruthy, List.intercalate]

/-- Witness for the amended claim C10 at a concrete two-fragment list
headed by a non-empty expression fragment. -/
theorem joinFragments_prefix_witness :
    joinFragments [Fragment.expr false ['a'], Fragment.str ['b']] false =
      List.intercalate (' ' :: '+' :: ' ' :: [])
        (('"' :: '"' :: []) :: [Fragment.expr false ['a'], Fragment.str ['b']].map fragSrc) ∧
    ∀ f : Fragment, joinFragments [f] false = fragSrc f :=
  joinFragments_prefix _ false ['a'] (by decide) (by decide) (by decide)

/-! ## Association-list lemmas -/

theorem alookup_aset_self {α β : Type} [DecidableEq α] (m : List (α × β)) (k : α) (v : β) :
    alookup (aset m k v) k = some v := by
  induction m with
  | nil => simp [aset, alookup]
  | cons p rest ih =>
    by_cases h : p.1 = k
    · simp [aset, alookup, h]
    · simp [aset, alookup, h, ih]

theorem aset_of_alookup_none {α β : Type} [DecidableEq α] {m : List (α × β)} {k : α}
    (v : β) (h : alookup m k = none) : aset m k v = m ++ [(k, v)] := by
  induction m with
  | nil => rfl
  | cons p rest ih =>
    by_cases hk : p.1 = k
    · rw [alookup, if_pos hk] at h
      exact Option.noConfusion h
    · rw [alookup, if_neg hk] at h
      simp [aset, hk, ih h]

theorem filter_key_eq_nil {β : Type} {m : List (List Char × β)} {k : List Char}
    (h : alookup m k = none) : m.filter (fun p => p.1 == k) = [] := by
  induction m with
  | nil => rfl
  | cons p rest ih =>
    by_cases hk : p.1 = k
    · rw [alookup, if_pos hk] at h
      exact Option.noConfusion h
    · rw [alookup, if_neg hk] at h
      simp [List.filter_cons, hk, ih h]

theorem alookup_aerase_self {α β : Type} [DecidableEq α] (m : List (α × β)) (k : α) :
    alookup (aerase m k) k = none := by
  induction m with
  | nil => rfl
  | cons p rest ih =>
    by_cases hk : p.1 = k
    · simp [aerase, List.filter_cons, hk]
      simpa [aerase] using ih
    · simp [aerase, List.filter_cons, hk, alookup]
      simpa [aerase] using ih

/-! ## Claim C3 -/

/-- Claim C3: sweeping an element with a registered cleanup queue runs
each queued callback exactly once (appending precisely the queue to the
execution trace), discards the queue, and makes a second sweep of the
same element a no-op. -/
theorem sweepElement_drains_once (s : SweepState) (el : Nat) (q : List Nat)
    (h : alookup s.queues el = some q) :
    (sweepElement s el).trace = s.trace ++ q ∧
    alookup (sweepElement s el).queues el = none ∧
    sweepElement (sweepElement s el) el = sweepElement s el := by
  have e1 : sweepElement s el =
      ⟨aerase s.queues el, s.flags.filter (fun x => x != el), s.trace ++ q⟩ := by
    unfold sweepElement
    rw [h]
  have e2 : alookup (sweepElement s el).queues el = none := by
    rw [e1]
    exact alookup_aerase_self _ _
  have e3 : ∀ (t : SweepState), alookup t.queues el = none → sweepElement t el = t := by
    intro t ht
    unfold sweepElement
    rw [ht]
  exact ⟨by rw [e1], e2, e3 _ e2⟩

/-- Witness for claim C3 at a concrete state with a two-callback queue. -/
theorem sweepElement_drains_once_witness :
    (sweepElement ⟨[(5, [1, 2])], [5], []⟩ 5).trace = [] ++ [1, 2] ∧
    alookup (sweepElement ⟨[(5, [1, 2])], [5], []⟩ 5).queues 5 = none ∧
    sweepElement (sweepElement ⟨[(5, [1, 2])], [5], []⟩ 5) 5 =
      sweepElement ⟨[(5, [1, 2])], [5], []⟩ 5 :=
  sweepElement_drains_once _ 5 [1, 2] (by decide)

/-! ## Claim C2 -/

theorem watchConstruct_of_none {s : WatchState} {el : Nat} (ev : List Char)
    (hA : alookup s.watchMaps el = none) :
    watchConstruct s el ev = (s.nextId,
      { watchMaps := aset s.watchMaps el [(ev, s.nextId)],
        entries := s.entries ++ [(s.nextId, ⟨[]⟩)],
        listeners := s.listeners ++ [(el, ev, s.nextId)],
        cleanups := (s.cleanups ++ [(el, CleanupAct.clearElementWatches el)]) ++
          [(el, CleanupAct.removeWatchListener el ev s.nextId)],
        nextId := s.nextId + 1 }) := by
  unfold watchConstruct
  rw [hA]
  rfl

theorem watchConstruct_of_some {s : WatchState} {el : Nat} {m : List (List Char × Nat)}
    (ev : List Char) (hA : alookup s.watchMaps el = some m) :
    watchConstruct s el ev = (s.nextId,
      { watchMaps := aset s.watchMaps el (aset m ev s.nextId),
        entries := s.entries ++ [(s.nextId, ⟨[]⟩)],
        listeners := s.listeners ++ [(el, ev, s.nextId)],
        cleanups := s.cleanups ++ [(el, CleanupAct.removeWatchListener el ev s.nextId)],
        nextId := s.nextId + 1 }) := by
  unfold watchConstruct
  rw [hA]

theorem registerWatch_of_none {s : WatchState} {el : Nat} (ev : List Char)
    (w : Nat) (sel : Option (List Char)) (p : Nat)
    (hA : alookup s.watchMaps el = none) :
    registerWatch s el ev w sel p =
      addWatcher
        { watchMaps := aset s.watchMaps el [(ev, s.nextId)],
          entries := s.entries ++ [(s.nextId, ⟨[]⟩)],
          listeners := s.listeners ++ [(el, ev, s.nextId)],
          cleanups := (s.cleanups ++ [(el, CleanupAct.clearElementWatches el)]) ++
            [(el, CleanupAct.removeWatchListener el ev s.nextId)],
          nextId := s.nextId + 1 } s.nextId w sel p := by
  unfold registerWatch watchFor
  rw [hA, watchConstruct_of_none ev hA]

theorem registerWatch_of_some {s : WatchState} {el : Nat} {m : List (List Char × Nat)}
    (ev : List Char) (w : Nat) (sel : Option (List Char)) (p : Nat)
    (hA : alookup s.watchMaps el = some m) (hm : alookup m ev = none) :
    registerWatch s el ev w sel p =
      addWatcher
        { watchMaps := aset s.watchMaps el (aset m ev s.nextId),
          entries := s.entries ++ [(s.nextId, ⟨[]⟩)],
          listeners := s.listeners ++ [(el, ev, s.nextId)],
          cleanups := s.cleanups ++ [(el, CleanupAct.removeWatchListener el ev s.nextId)],
          nextId := s.nextId + 1 } s.nextId w sel p := by
  unfold registerWatch watchFor
  rw [hA]
  dsimp only
  rw [hm, watchConstruct_of_some ev hA]

theorem addWatcher_listeners (s : WatchState) (wid w : Nat) (sel : Option (List Char))
    (p : Nat) : (addWatcher s wid w sel p).listeners = s.listeners := by
  unfold addWatcher
  rcases alookup s.entries wid with _ | entry
  · rfl
  · rcases alookup entry.watchers w with _ | os <;> rfl

theorem addWatcher_watchMaps (s : WatchState) (wid w : Nat) (sel : Option (List Char))
    (p : Nat) : (addWatcher s wid w sel p).watchMaps = s.watchMaps := by
  unfold addWatcher
  rcases alookup s.entries wid with _ | entry
  · rfl
  · rcases alookup entry.watchers w with _ | os <;> rfl

theorem watchFor_of_lookup (t : WatchState) (el : Nat) (ev : List Char) (wid : Nat)
    (h : watchLookup t el ev = some wid) :
    watchFor t el ev = (wid, t) := by
  unfold watchLookup at h
  unfold watchFor
  rcases hA : alookup t.watchMaps el with _ | m
  · simp [hA] at h
  · rw [hA] at h
    dsimp only at h
    simp [h]

/-- Claim C2: for a pair `(el, ev)` with no registered entry,
registering a watcher creates one entry bound to the fresh instance id
and installs exactly one listener; registering a second watcher on the
same pair reuses that entry (`Watch.for` returns it and leaves the
state untouched), installs no further listener, and the pair still maps
to exactly one instance. -/
theorem watch_pair_unique (s : WatchState) (el : Nat) (ev : List Char)
    (w1 w2 : Nat) (sel1 sel2 : Option (List Char)) (p1 p2 : Nat)
    (h : watchLookup s el ev = none) :
    watchLookup (registerWatch s el ev w1 sel1 p1) el ev = some s.nextId ∧
    listenerCount (registerWatch s el ev w1 sel1 p1) el ev = listenerCount s el ev + 1 ∧
    listenerCount (registerWatch (registerWatch s el ev w1 sel1 p1) el ev w2 sel2 p2) el ev =
      listenerCount (registerWatch s el ev w1 sel1 p1) el ev ∧
    pairEntryIds (registerWatch (registerWatch s el ev w1 sel1 p1) el ev w2 sel2 p2) el ev =
      [s.nextId] ∧
    (∀ (t : WatchState) (wid : Nat), watchLookup t el ev = some wid →
      watchFor t el ev = (wid, t)) := by
  have key : ∃ m0 : List (List Char × Nat), alookup m0 ev = none ∧
      (registerWatch s el ev w1 sel1 p1).watchMaps =
        aset s.watchMaps el (aset m0 ev s.nextId) ∧
      (registerWatch s el ev w1 sel1 p1).listeners = s.listeners ++ [(el, ev, s.nextId)] := by
    unfold watchLookup at h
    rcases hA : alookup s.watchMaps el with _ | m
    · refine ⟨[], rfl, ?_, ?_⟩
      · rw [registerWatch_of_none ev w1 sel1 p1 hA, addWatcher_watchMaps]
        rfl
      · rw [registerWatch_of_none ev w1 sel1 p1 hA, addWatcher_listeners]
    · rw [hA] at h
      dsimp only at h
      refine ⟨m, h, ?_, ?_⟩
      · rw [registerWatch_of_some ev w1 sel1 p1 hA h, addWatcher_watchMaps]
      · rw [registerWatch_of_some ev w1 sel1 p1 hA h, addWatcher_listeners]
  obtain ⟨m0, hm0, hwm, hlis⟩ := key
  have hlook1 : watchLookup (registerWatch s el ev w1 sel1 p1) el ev = some s.nextId := by
    unfold watchLookup
    rw [hwm, alookup_aset_self]
    dsimp only
    rw [alookup_aset_self]
  have hcount1 : listenerCount (registerWatch s el ev w1 sel1 p1) el ev =
      listenerCount s el ev + 1 := by
    unfold listenerCount
    rw [hlis, List.filter_append]
    simp
  have hreuse : ∀ (t : WatchState) (wid : Nat), watchLookup t el ev = some wid →
      watchFor t el ev = (wid, t) := fun t wid ht => watchFor_of_lookup t el ev wid ht
  have hsecond : registerWatch (registerWatch s el ev w1 sel1 p1) el ev w2 sel2 p2 =
      addWatcher (registerWatch s el ev w1 sel1 p1) s.nextId w2 sel2 p2 := by
    conv_lhs => rw [registerWatch]
    rw [hreuse _ _ hlook1]
  refine ⟨hlook1, hcount1, ?_, ?_, hreuse⟩
  · rw [hsecond]
    unfold listenerCount
    rw [addWatcher_listeners]
  · rw [hsecond]
    unfold pairEntryIds
    rw [addWatcher_watchMaps, hwm, alookup_aset_self]
    dsimp only
    rw [aset_of_alookup_none _ hm0, List.filter_append, filter_key_eq_nil hm0]
    simp

/-- Witness for claim C2 from the empty watch registry. -/
theorem watch_pair_unique_witness :
    watchLookup (registerWatch ⟨[], [], [], [], 0⟩ 3 ("click".toList) 7 none 0) 3
      ("click".toList) = some 0 ∧
    listenerCount (registerWatch ⟨[], [], [], [], 0⟩ 3 ("click".toList) 7 none 0) 3
      ("click".toList) = listenerCount ⟨[], [], [], [], 0⟩ 3 ("click".toList) + 1 ∧
    listenerCount (registerWatch (registerWatch ⟨[], [], [], [], 0⟩ 3 ("click".toList) 7 none 0)
        3 ("click".toList) 8 none 1) 3 ("click".toList) =
      listenerCount (registerWatch ⟨[], [], [], [], 0⟩ 3 ("click".toList) 7 none 0) 3
        ("click".toList) ∧
    pairEntryIds (registerWatch (registerWatch ⟨[], [], [], [], 0⟩ 3 ("click".toList) 7 none 0)
        3 ("click".toList) 8 none 1) 3 ("click".toList) = [(⟨[], [], [], [], 0⟩ : WatchState).nextId] ∧
    (∀ (t : WatchState) (wid : Nat), watchLookup t 3 ("click".toList) = some wid →
      watchFor t 3 ("click".toList) = (wid, t)) :=
  watch_pair_unique ⟨[], [], [], [], 0⟩ 3 ("click".toList) 7 8 none none 0 1 (by decide)

/-! ## Claim C8 -/

/-- Claim C8: when the template's context declares iteration bindings
and the `each` part evaluates to a value without a `forEach` method (or
a falsy value), `infuse` fails with the `TypeError`-class error and has
performed only the context-creation side effects — in particular no
clone of the template content was made and no element was
initialized. -/
theorem infuse_nonIterable_typeError (t : TemplateModel) (ctx : CtxModel)
    (f : Unit → Value) (v : Value)
    (hctx : t.context = some ctx)
    (heach : alookup ctx.parts ("each".toList) = some (PartVal.pfn f))
    (hv : f () = v)
    (hni : (truthy v && hasForEachMethod v) = false) :
    infuse t = (createContextEffects t, Except.error (InfuseError.typeError eachInvalidMsg)) ∧
    (∀ n : Nat, Effect.cloneContent n ∉ (infuse t).1) ∧
    (∀ n : Nat, Effect.initElement n ∉ (infuse t).1) := by
  have heq : infuse t =
      (createContextEffects t, Except.error (InfuseError.typeError eachInvalidMsg)) := by
    rw [infuse, hctx]
    dsimp only
    rw [heach]
    dsimp only
    rw [hv, hni]
    rcases v with _ | _ | b | n | s2 | items | _ <;> simp_all [truthy, hasForEachMethod]
  refine ⟨heq, fun n => ?_, fun n => ?_⟩ <;>
  · rw [heq]
    dsimp only
    unfold createContextEffects
    rw [hctx]
    dsimp only
    simp

/-- Witness for claim C8: a template whose `each` part evaluates to the
number `5`. -/
theorem infuse_nonIterable_typeError_witness :
    infuse (TemplateModel.mk 7
        (some ⟨[("each".toList, PartVal.pfn (fun _ => Value.numv 5))], []⟩) [1, 2] []) =
      (createContextEffects (TemplateModel.mk 7
        (some ⟨[("each".toList, PartVal.pfn (fun _ => Value.numv 5))], []⟩) [1, 2] []),
       Except.error (InfuseError.typeError eachInvalidMsg)) ∧
    (∀ n : Nat, Effect.cloneContent n ∉
      (infuse (TemplateModel.mk 7
        (some ⟨[("each".toList, PartVal.pfn (fun _ => Value.numv 5))], []⟩) [1, 2] [])).1) ∧
    (∀ n : Nat, Effect.initElement n ∉
      (infuse (TemplateModel.mk 7
        (some ⟨[("each".toList, PartVal.pfn (fun _ => Value.numv 5))], []⟩) [1, 2] [])).1) :=
  infuse_nonIterable_typeError _ _ _ (Value.numv 5) rfl rfl rfl rfl

/-! ## Claim C4 -/

theorem awaitFlag_eq_term (cfg : ParseCfg) (p : List Char × List Char) :
    ((if (searchName p.1 cfg.eventHandlerExp).isSome = true then none
        else splitFragments (if (searchName p.1 cfg.eventHandlerExp).isSome = true
          then jsTrim p.2 else p.2)).isSome
      && (((searchName p.1 cfg.constantExp).isSome || (searchName p.1 cfg.watchExp).isSome)
      && ((if (searchName p.1 cfg.eventHandlerExp).isSome = true then none
        else splitFragments (if (searchName p.1 cfg.eventHandlerExp).isSome = true
          then jsTrim p.2 else p.2)).getD []).any fragmentHasAwait))
    = awaitFlag cfg p := by
  by_cases hEH : (searchName p.1 cfg.eventHandlerExp).isSome
  · simp [awaitFlag, hEH]
  · simp only [Bool.not_eq_true] at hEH
    cases hsp : splitFragments p.2 with
    | none => simp [awaitFlag, hEH, hsp]
    | some frags => simp [awaitFlag, hEH, hsp]

theorem attrStep_isAsync (cfg : ParseCfg) (tmpl : Bool) (st : ParseResult)
    (p : List Char × List Char) (st' : ParseResult)
    (h : attrStep cfg tmpl st p = Except.ok st') :
    st'.isAsync = (st.isAsync || awaitFlag cfg p) := by
  unfold attrStep at h
  dsimp only at h
  by_cases hEH : (searchName p.1 cfg.eventHandlerExp).isSome
  · have hAF : awaitFlag cfg p = false := by
      rw [awaitFlag, if_pos hEH]
    rw [hAF]
    simp [hEH] at h
    repeat' split at h
    all_goals first
      | exact Except.noConfusion h
      | (cases h; simp)
  · have hEHf : (searchName p.1 cfg.eventHandlerExp).isSome = false := by
      simpa using hEH
    cases hsp : splitFragments p.2 with
    | none =>
      have hAF : awaitFlag cfg p = false := by
        rw [awaitFlag, if_neg (by simp [hEHf]), hsp]
      rw [hAF]
      simp [hEHf, hsp] at h
      repeat' split at h
      all_goals first
        | exact Except.noConfusion h
        | (cases h; simp)
    | some frags =>
      have hAF : awaitFlag cfg p =
          (((searchName p.1 cfg.constantExp).isSome || (searchName p.1 cfg.watchExp).isSome)
            && frags.any fragmentHasAwait) := by
        rw [awaitFlag, if_neg (by simp [hEHf]), hsp]
      rw [hAF]
      simp [hEHf, hsp] at h
      repeat' split at h
      all_goals first
        | exact Except.noConfusion h
        | (cases h; simp)

theorem processAttrs_isAsync (cfg : ParseCfg) (tmpl : Bool)
    (l : List (List Char × List Char)) (st : ParseResult) (r : ParseResult)
    (h : processAttrs cfg tmpl l st = Except.ok r) :
    (r.isAsync = true ↔ (st.isAsync = true ∨ ∃ p ∈ l, awaitFlag cfg p = true)) := by
  induction l generalizing st with
  | nil =>
    cases h
    simp
  | cons p rest ih =>
    unfold processAttrs at h
    rcases hstep : attrStep cfg tmpl st p with e | st1
    · rw [hstep] at h
      exact Except.noConfusion h
    · rw [hstep] at h
      dsimp only at h
      have h1 := attrStep_isAsync cfg tmpl st p st1 hstep
      have h2 := ih st1 h
      rw [h2, h1]
      simp only [Bool.or_eq_true, List.mem_cons]
      constructor
      · rintro ((hst | hp) | ⟨q, hq, hfl⟩)
        · exact Or.inl hst
        · exact Or.inr ⟨p, Or.inl rfl, hp⟩
        · exact Or.inr ⟨q, Or.inr hq, hfl⟩
      · rintro (hst | ⟨q, (rfl | hq), hfl⟩)
        · exact Or.inl (Or.inl hst)
        · exact Or.inl (Or.inr hfl)
        · exact Or.inr ⟨q, hq, hfl⟩

theorem awaitFlag_iff (cfg : ParseCfg) (p : List Char × List Char) :
    awaitFlag cfg p = true ↔
      (searchName p.1 cfg.eventHandlerExp = none ∧
       (searchName p.1 cfg.constantExp ≠ none ∨ searchName p.1 cfg.watchExp ≠ none) ∧
       ∃ frags, splitFragments p.2 = some frags ∧ frags.any fragmentHasAwait = true) := by
  unfold awaitFlag
  cases hE : searchName p.1 cfg.eventHandlerExp with
  | some v => simp
  | none =>
    cases hsp : splitFragments p.2 with
    | none => simp
    | some frags => simp [Option.isSome_iff_ne_none]

/-- Claim C4: after a successful parse, the extraction result's
`isAsync` flag is true iff some attribute that is not an event handler
and is a constant or watch declaration has a tokenized value containing
a fragment with the `await` marker (event-handler values are never
tokenized and generic parts never contribute); and
`createContextFunction` chooses the awaitable (`AsyncFunction`)
constructor exactly when `isAsync` is true. -/
theorem parseParts_isAsync_iff (cfg : ParseCfg) (tmpl : Bool)
    (attrs : List (List Char × List Char)) (nodes : List ChildNode) (r : ParseResult)
    (h : parseParts cfg tmpl attrs nodes = Except.ok r) :
    (r.isAsync = true ↔ ∃ p ∈ attrs,
        searchName p.1 cfg.eventHandlerExp = none ∧
        (searchName p.1 cfg.constantExp ≠ none ∨ searchName p.1 cfg.watchExp ≠ none) ∧
        ∃ frags, splitFragments p.2 = some frags ∧ frags.any fragmentHasAwait = true) ∧
    (∀ ics : List (List Char),
      ((createContextFunction cfg ics r).1 = FnKind.asyncFn ↔ r.isAsync = true)) := by
  constructor
  · unfold parseParts at h
    rcases hpa : processAttrs cfg tmpl attrs emptyParseResult with e | st
    · rw [hpa] at h
      exact Except.noConfusion h
    · rw [hpa] at h
      dsimp only at h
      have hiff := processAttrs_isAsync cfg tmpl attrs emptyParseResult st hpa
      have hra : r.isAsync = st.isAsync := by
        split at h
        · cases h
          rfl
        · cases h
          rfl
      rw [hra, hiff]
      constructor
      · rintro (hst | ⟨q, hq, hfl⟩)
        · simp [emptyParseResult] at hst
        · exact ⟨q, hq, (awaitFlag_iff cfg q).mp hfl⟩
      · rintro ⟨q, hq, hc⟩
        exact Or.inr ⟨q, hq, (awaitFlag_iff cfg q).mpr hc⟩
  · intro ics
    unfold createContextFunction
    cases hia : r.isAsync <;> simp [hia]

/-- Witness for claim C4: a single `const-x="$\x7b await p \x7d"`
attribute under the shipped configuration yields `isAsync = true`. -/
theorem parseParts_isAsync_iff_witness :
    ((⟨[("x".toList, "(await p)".toList)], [], [], true, [], ["const-x".toList], [], []⟩ :
        ParseResult).isAsync = true ↔
      ∃ p ∈ [("const-x".toList, "$\x7b await p \x7d".toList)],
        searchName p.1 defaultConfigs.eventHandlerExp = none ∧
        (searchName p.1 defaultConfigs.constantExp ≠ none ∨
          searchName p.1 defaultConfigs.watchExp ≠ none) ∧
        ∃ frags, splitFragments p.2 = some frags ∧ frags.any fragmentHasAwait = true) ∧
    (∀ ics : List (List Char),
      ((createContextFunction defaultConfigs ics
          (⟨[("x".toList, "(await p)".toList)], [], [], true, [], ["const-x".toList], [], []⟩ :
            ParseResult)).1 = FnKind.asyncFn ↔
        (⟨[("x".toList, "(await p)".toList)], [], [], true, [], ["const-x".toList], [], []⟩ :
          ParseResult).isAsync = true)) :=
  parseParts_isAsync_iff defaultConfigs false
    [("const-x".toList, "$\x7b await p \x7d".toList)] [] _ (by rfl)

/-! ## Claim C7 -/

theorem child_mem_aset_attr {m : List (PartKey × List Char)} {nm v : List Char}
    {i : Nat} {c : List Char} :
    ((PartKey.child i, c) ∈ aset m (PartKey.attr nm) v) ↔ (PartKey.child i, c) ∈ m := by
  induction m with
  | nil => simp [aset]
  | cons q rest ih =>
    obtain ⟨qk, qv⟩ := q
    by_cases hq : qk = PartKey.attr nm
    · subst hq
      simp [aset]
    · rw [show aset ((qk, qv) :: rest) (PartKey.attr nm) v =
          (qk, qv) :: aset rest (PartKey.attr nm) v from by rw [aset, if_neg hq]]
      rw [List.mem_cons, List.mem_cons, ih]

theorem attrStep_parsedChildNodes (cfg : ParseCfg) (tmpl : Bool) (st : ParseResult)
    (p : List Char × List Char) (st' : ParseResult)
    (h : attrStep cfg tmpl st p = Except.ok st') :
    st'.parsedChildNodes = st.parsedChildNodes := by
  unfold attrStep at h
  dsimp only at h
  repeat' split at h
  all_goals first
    | exact Except.noConfusion h
    | (cases h; rfl)

theorem attrStep_childParts (cfg : ParseCfg) (tmpl : Bool) (st : ParseResult)
    (p : List Char × List Char) (st' : ParseResult)
    (h : attrStep cfg tmpl st p = Except.ok st') (i : Nat) (c : List Char) :
    ((PartKey.child i, c) ∈ st'.parts ↔ (PartKey.child i, c) ∈ st.parts) := by
  unfold attrStep at h
  dsimp only at h
  repeat' split at h
  all_goals first
    | exact Except.noConfusion h
    | (cases h; exact Iff.rfl)
    | (cases h; exact child_mem_aset_attr)

theorem processAttrs_parsedChildNodes (cfg : ParseCfg) (tmpl : Bool)
    (l : List (List Char × List Char)) (st : ParseResult) (r : ParseResult)
    (h : processAttrs cfg tmpl l st = Except.ok r) :
    r.parsedChildNodes = st.parsedChildNodes := by
  induction l generalizing st with
  | nil =>
    cases h
    rfl
  | cons p rest ih =>
    unfold processAttrs at h
    rcases hstep : attrStep cfg tmpl st p with e | st1
    · rw [hstep] at h
      exact Except.noConfusion h
    · rw [hstep] at h
      dsimp only at h
      rw [ih st1 h, attrStep_parsedChildNodes cfg tmpl st p st1 hstep]

theorem processAttrs_childParts (cfg : ParseCfg) (tmpl : Bool)
    (l : List (List Char × List Char)) (st : ParseResult) (r : ParseResult)
    (h : processAttrs cfg tmpl l st = Except.ok r) (i : Nat) (c : List Char) :
    ((PartKey.child i, c) ∈ r.parts ↔ (PartKey.child i, c) ∈ st.parts) := by
  induction l generalizing st with
  | nil =>
    cases h
    exact Iff.rfl
  | cons p rest ih =>
    unfold processAttrs at h
    rcases hstep : attrStep cfg tmpl st p with e | st1
    · rw [hstep] at h
      exact Except.noConfusion h
    · rw [hstep] at h
      dsimp only at h
      rw [ih st1 h, attrStep_childParts cfg tmpl st p st1 hstep i c]

theorem shifted_child_cond (node : ChildNode) (rest : List ChildNode) (start i : Nat)
    (hnode : ∀ t', node = ChildNode.text t' → ¬(3 < t'.length ∧ splitFragments t' ≠ none)) :
    ((∃ t, start + 1 ≤ i ∧ rest[i - (start+1)]? = some (ChildNode.text t) ∧ 3 < t.length ∧
        splitFragments t ≠ none)
      ↔ (∃ t, start ≤ i ∧ (node :: rest)[i - start]? = some (ChildNode.text t) ∧
        3 < t.length ∧ splitFragments t ≠ none)) := by
  constructor
  · rintro ⟨t', hle, hget, hl, hs⟩
    refine ⟨t', by omega, ?_, hl, hs⟩
    rw [show i - start = (i - (start+1)) + 1 from by omega, List.getElem?_cons_succ]
    exact hget
  · rintro ⟨t', hle, hget, hl, hs⟩
    by_cases hi : i = start
    · subst hi
      rw [Nat.sub_self, List.getElem?_cons_zero] at hget
      have hnt : node = ChildNode.text t' := by
        exact (Option.some.injEq _ _).mp hget
      exact absurd ⟨hl, hs⟩ (hnode t' hnt)
    · refine ⟨t', by omega, ?_, hl, hs⟩
      rw [show i - start = (i - (start+1)) + 1 from by omega, List.getElem?_cons_succ] at hget
      exact hget

theorem processChildNodes_idx_mem (nodes : List ChildNode) (start i : Nat) :
    i ∈ (processChildNodes nodes start).2 ↔
      ∃ t, start ≤ i ∧ nodes[i - start]? = some (ChildNode.text t) ∧ 3 < t.length ∧
        splitFragments t ≠ none := by
  induction nodes generalizing start with
  | nil => simp [processChildNodes]
  | cons node rest ih =>
    unfold processChildNodes
    dsimp only
    cases node with
    | text t =>
      dsimp only
      by_cases hlen : 3 < t.length
      · rw [if_pos hlen]
        cases hsp : splitFragments t with
        | some frags =>
          dsimp only
          rw [List.mem_cons, ih (start+1)]
          constructor
          · rintro (rfl | ⟨t', hle, hget, hl, hs⟩)
            · refine ⟨t, Nat.le_refl i, ?_, hlen, by rw [hsp]; exact fun hx => Option.noConfusion hx⟩
              rw [Nat.sub_self, List.getElem?_cons_zero]
            · refine ⟨t', by omega, ?_, hl, hs⟩
              rw [show i - start = (i - (start+1)) + 1 from by omega, List.getElem?_cons_succ]
              exact hget
          · rintro ⟨t', hle, hget, hl, hs⟩
            by_cases hi : i = start
            · exact Or.inl hi
            · right
              refine ⟨t', by omega, ?_, hl, hs⟩
              rw [show i - start = (i - (start+1)) + 1 from by omega,
                List.getElem?_cons_succ] at hget
              exact hget
        | none =>
          dsimp only
          rw [ih (start+1)]
          refine shifted_child_cond _ rest start i ?_
          rintro t' ht' ⟨-, hs⟩
          injection ht' with hdata
          subst hdata
          exact hs hsp
      · rw [if_neg hlen]
        rw [ih (start+1)]
        refine shifted_child_cond _ rest start i ?_
        rintro t' ht' ⟨hl, -⟩
        injection ht' with hdata
        subst hdata
        exact hlen hl
    | elem =>
      dsimp only
      rw [ih (start+1)]
      refine shifted_child_cond _ rest start i ?_
      rintro t' ht' -
      exact ChildNode.noConfusion ht'

theorem processChildNodes_key_mem (nodes : List ChildNode) (start i : Nat) :
    (∃ c, (PartKey.child i, c) ∈ (processChildNodes nodes start).1) ↔
      i ∈ (processChildNodes nodes start).2 := by
  induction nodes generalizing start with
  | nil => simp [processChildNodes]
  | cons node rest ih =>
    unfold processChildNodes
    dsimp only
    cases node with
    | text t =>
      dsimp only
      by_cases hlen : 3 < t.length
      · rw [if_pos hlen]
        cases hsp : splitFragments t with
        | some frags =>
          dsimp only
          simp only [List.mem_cons, Prod.mk.injEq, PartKey.child.injEq]
          constructor
          · rintro ⟨c, ⟨rfl, rfl⟩ | hc⟩
            · exact Or.inl rfl
            · exact Or.inr ((ih (start+1)).mp ⟨c, hc⟩)
          · rintro (rfl | hmem)
            · exact ⟨joinFragments frags true, Or.inl ⟨rfl, rfl⟩⟩
            · obtain ⟨c, hc⟩ := (ih (start+1)).mpr hmem
              exact ⟨c, Or.inr hc⟩
        | none =>
          dsimp only
          exact ih (start+1)
      · rw [if_neg hlen]
        exact ih (start+1)
    | elem =>
      dsimp only
      exact ih (start+1)

/-- Claim C7: for a non-template element, `parseParts` registers a
text-node part exactly for those child positions holding a text node
longer than 3 characters whose content tokenizes to fragments
(`splitFragments ≠ null`), keyed by the zero-based position counted
over all child nodes; in particular the children of
`<p>$\x7b host.x \x7d<b>t</b>$\x7b host.y \x7d</p>` produce exactly the
two parts keyed `0` and `2`. -/
theorem parseParts_textParts (cfg : ParseCfg)
    (attrs : List (List Char × List Char)) (nodes : List ChildNode) (r : ParseResult)
    (h : parseParts cfg false attrs nodes = Except.ok r) :
    (∀ i : Nat,
      (i ∈ r.parsedChildNodes ↔
        ∃ t, nodes[i]? = some (ChildNode.text t) ∧ 3 < t.length ∧ splitFragments t ≠ none) ∧
      ((∃ c, (PartKey.child i, c) ∈ r.parts) ↔ i ∈ r.parsedChildNodes)) ∧
    (parseParts defaultConfigs false []
        [ChildNode.text ("$\x7b host.x \x7d".toList), ChildNode.elem,
         ChildNode.text ("$\x7b host.y \x7d".toList)]).map ParseResult.parsedChildNodes =
      Except.ok [0, 2] := by
  constructor
  · intro i
    unfold parseParts at h
    rcases hpa : processAttrs cfg false attrs emptyParseResult with e | stA
    · rw [hpa] at h
      exact Except.noConfusion h
    · rw [hpa] at h
      dsimp only at h
      cases h
      have hpc : stA.parsedChildNodes = ([] : List Nat) :=
        processAttrs_parsedChildNodes cfg false attrs emptyParseResult stA hpa
      have hmemA : ∀ c, (PartKey.child i, c) ∈ stA.parts ↔ False := by
        intro c
        rw [processAttrs_childParts cfg false attrs emptyParseResult stA hpa i c]
        simp [emptyParseResult]
      constructor
      · dsimp only
        rw [hpc, List.nil_append, processChildNodes_idx_mem nodes 0 i]
        constructor
        · rintro ⟨t, -, hget, hl, hs⟩
          rw [Nat.sub_zero] at hget
          exact ⟨t, hget, hl, hs⟩
        · rintro ⟨t, hget, hl, hs⟩
          exact ⟨t, Nat.zero_le i, by rw [Nat.sub_zero]; exact hget, hl, hs⟩
      · dsimp only
        rw [hpc, List.nil_append]
        constructor
        · rintro ⟨c, hc⟩
          rw [List.mem_append] at hc
          rcases hc with hc | hc
          · exact ((hmemA c).mp hc).elim
          · exact (processChildNodes_key_mem nodes 0 i).mp ⟨c, hc⟩
        · intro hmem
          obtain ⟨c, hc⟩ := (processChildNodes_key_mem nodes 0 i).mpr hmem
          refine ⟨c, ?_⟩
          rw [List.mem_append]
          exact Or.inr hc
  · rfl

/-- Witness for claim C7: the child-node list of
`<p>$\x7b host.x \x7d<b>t</b>$\x7b host.y \x7d</p>` under the shipped
configuration, with the parse result computed explicitly. -/
theorem parseParts_textParts_witness :
    (∀ i : Nat,
      (i ∈ (⟨[], [], [], false,
          [(PartKey.child 0, joinFragments [Fragment.expr false ("host.x".toList)] true),
           (PartKey.child 2, joinFragments [Fragment.expr false ("host.y".toList)] true)],
          [], [0, 2], []⟩ : ParseResult).parsedChildNodes ↔
        ∃ t, [ChildNode.text ("$\x7b host.x \x7d".toList), ChildNode.elem,
            ChildNode.text ("$\x7b host.y \x7d".toList)][i]? = some (ChildNode.text t) ∧
          3 < t.length ∧ splitFragments t ≠ none) ∧
      ((∃ c, (PartKey.child i, c) ∈ (⟨[], [], [], false,
          [(PartKey.child 0, joinFragments [Fragment.expr false ("host.x".toList)] true),
           (PartKey.child 2, joinFragments [Fragment.expr false ("host.y".toList)] true)],
          [], [0, 2], []⟩ : ParseResult).parts) ↔
        i ∈ (⟨[], [], [], false,
          [(PartKey.child 0, joinFragments [Fragment.expr false ("host.x".toList)] true),
           (PartKey.child 2, joinFragments [Fragment.expr false ("host.y".toList)] true)],
          [], [0, 2], []⟩ : ParseResult).parsedChildNodes)) ∧
    (parseParts defaultConfigs false []
        [ChildNode.text ("$\x7b host.x \x7d".toList), ChildNode.elem,
         ChildNode.text ("$\x7b host.y \x7d".toList)]).map ParseResult.parsedChildNodes =
      Except.ok [0, 2] :=
  parseParts_textParts defaultConfigs []
    [ChildNode.text ("$\x7b host.x \x7d".toList), ChildNode.elem,
     ChildNode.text ("$\x7b host.y \x7d".toList)] _ (by rfl)

end Infuse
